import Mathlib

/-!
Verification of the email-shamer repository cores:
the DMARC record parser and policy evaluator (`dmarc.module.ts`),
the TTL cache (`app.module.ts`, `CacheService`),
the IP/domain vote ledger (`IpBlockerService`),
and the registry sort (`DomainsController.getDomainRegistry`).

Strings are modelled on `List Char` (Lean's `String` is a wrapper around
`List Char`), machine numbers as `Int`/`Nat`, JS `Date` instants as `Int`
milliseconds, and thrown exceptions as `Except String`.
-/

/-! ### JavaScript string primitives -/

/-- `String.prototype.trim`: drop leading and trailing whitespace. -/
def jsTrim (s : List Char) : List Char :=
  ((s.dropWhile Char.isWhitespace).reverse.dropWhile Char.isWhitespace).reverse

/-- `String.prototype.split` with a single-character separator.
`splitCh c s` returns the (possibly empty) chunks of `s` between
occurrences of `c`; like JS, `splitCh c [] = [[]]`. -/
def splitCh (c : Char) : List Char → List (List Char)
  | [] => [[]]
  | x :: xs =>
    let r := splitCh c xs
    if x = c then [] :: r
    else
      match r with
      | [] => [[x]]
      | h :: t => (x :: h) :: t

/-- `String.prototype.toLowerCase` (ASCII fragment, which is all the parser
compares against). -/
def jsToLower (s : List Char) : List Char := s.map Char.toLower

/-- `parseInt(s, 10)`: skip whitespace, read an optional sign and then the
longest prefix of decimal digits; `none` models `NaN`. -/
def jsParseInt (s : List Char) : Option Int :=
  let t := s.dropWhile Char.isWhitespace
  match t with
  | '-' :: rest => (digitsVal rest).map (fun n => -(n : Int))
  | '+' :: rest => (digitsVal rest).map (fun n => (n : Int))
  | rest => (digitsVal rest).map (fun n => (n : Int))
where
  /-- Value of the longest leading digit run; `none` when there is none. -/
  digitsVal (cs : List Char) : Option Nat :=
    let ds := cs.takeWhile Char.isDigit
    if ds.isEmpty then none
    else some (ds.foldl (fun acc c => acc * 10 + (c.toNat - '0'.toNat)) 0)

/-! ### DMARC data model (`dmarc.module.ts`) -/

/-- `{spf, dkim}` alignment object; values are the strings
"relaxed" / "strict" exactly as in the TS union type. -/
structure DmarcAlignment where
  spf : String
  dkim : String
deriving DecidableEq, Repr

/-- The `DmarcPolicy` interface. TS optional fields become `Option`. -/
structure DmarcPolicy where
  version : String
  policy : String
  subdomainPolicy : Option String := none
  percentage : Option Int := none
  reportingAddresses : Option (List String) := none
  alignment : Option DmarcAlignment := none
  rawRecord : String
deriving DecidableEq, Repr

/-- The `ValidationIssue` interface; `type` and `severity` keep their
string-literal values. -/
structure ValidationIssue where
  type : String
  severity : String
  message : String
  recommendation : String
deriving DecidableEq, Repr

deriving instance DecidableEq for Except

/-! ### DMARC record parsing (`DmarcValidatorImpl.parseDmarcRecord`) -/

/-- Key/value extraction for one `;`-segment, lines 98–102 of the source:
`pair.split('=')` (all occurrences), trim every part, destructure the first
two as key/value, and skip the pair when the key is empty (`!key`) or there
is no value (`value === undefined`). -/
def kvOf (pair : List Char) : Option (List Char × List Char) :=
  match (splitCh '=' pair).map jsTrim with
  | k :: v :: _ => if k = [] then none else some (k, v)
  | _ => none

/-- The body of the `switch (key.toLowerCase())` dispatch: one recognized
tag updates the in-progress policy or throws; unrecognized tags are
ignored. -/
def processKV (key value : List Char) (policy : DmarcPolicy) :
    Except String DmarcPolicy :=
  let k := jsToLower key
  if k = "v".data then
    if value = "DMARC1".data then .ok { policy with version := String.mk value }
    else .error ("Invalid DMARC version: " ++ String.mk value)
  else if k = "p".data then
    if value = "none".data ∨ value = "quarantine".data ∨ value = "reject".data then
      .ok { policy with policy := String.mk value }
    else .error ("Invalid policy value: " ++ String.mk value)
  else if k = "sp".data then
    if value = "none".data ∨ value = "quarantine".data ∨ value = "reject".data then
      .ok { policy with subdomainPolicy := some (String.mk value) }
    else .error ("Invalid subdomain policy value: " ++ String.mk value)
  else if k = "pct".data then
    match jsParseInt value with
    | none => .error ("Invalid percentage value: " ++ String.mk value)
    | some n =>
      if n < 0 ∨ 100 < n then .error ("Invalid percentage value: " ++ String.mk value)
      else .ok { policy with percentage := some n }
  else if k = "rua".data ∨ k = "ruf".data then
    let addresses := ((splitCh ',' value).map jsTrim).filter (fun a => a.length > 0)
    let combined := policy.reportingAddresses.getD [] ++ addresses.map String.mk
    .ok { policy with reportingAddresses := some combined }
  else if k = "adkim".data then
    let al := policy.alignment.getD ⟨"relaxed", "relaxed"⟩
    if value = "r".data ∨ value = "s".data ∨ value = "relaxed".data ∨ value = "strict".data then
      .ok { policy with alignment := some { al with
        dkim := if value = "s".data ∨ value = "strict".data then "strict" else "relaxed" } }
    else .error ("Invalid DKIM alignment value: " ++ String.mk value)
  else if k = "aspf".data then
    let al := policy.alignment.getD ⟨"relaxed", "relaxed"⟩
    if value = "r".data ∨ value = "s".data ∨ value = "relaxed".data ∨ value = "strict".data then
      .ok { policy with alignment := some { al with
        spf := if value = "s".data ∨ value = "strict".data then "strict" else "relaxed" } }
    else .error ("Invalid SPF alignment value: " ++ String.mk value)
  else .ok policy

/-- One iteration of the `for (const pair of pairs)` loop. -/
def processPair (pair : List Char) (policy : DmarcPolicy) :
    Except String DmarcPolicy :=
  match kvOf pair with
  | none => .ok policy
  | some kv => processKV kv.1 kv.2 policy

/-- The whole loop: a throw aborts the parse. -/
def processPairs : List (List Char) → DmarcPolicy → Except String DmarcPolicy
  | [], policy => .ok policy
  | pair :: rest, policy =>
    match processPair pair policy with
    | .error e => .error e
    | .ok policy2 => processPairs rest policy2

/-- Segmentation of the record, line 95 of the source: split the trimmed
record on `;`, trim each segment, keep the non-empty ones. -/
def pairsOf (record : String) : List (List Char) :=
  ((splitCh ';' (jsTrim record.data)).map jsTrim).filter (fun p => p.length > 0)

/-- `DmarcValidatorImpl.parseDmarcRecord`. -/
def parseDmarcRecord (record : String) : Except String DmarcPolicy :=
  if record.data = [] then
    .error "Invalid DMARC record: record must be a non-empty string"
  else
    let cleanRecord := jsTrim record.data
    if "v=DMARC1".data.isPrefixOf cleanRecord then
      processPairs (pairsOf record)
        { version := "DMARC1", policy := "none", rawRecord := String.mk cleanRecord }
    else
      .error "Invalid DMARC record: must start with v=DMARC1"

/-! ### Policy evaluation (`DmarcValidatorImpl.evaluatePolicy`) -/

/-- A character allowed by the regex class `[^\s@]`. -/
def emailOkChar (c : Char) : Bool := !c.isWhitespace && c != '@'

/-- Full-string match of `/^[^\s@]+@[^\s@]+\.[^\s@]+$/`: a non-empty run of
non-space non-`@` characters, one `@`, then a tail with no space or `@`
containing a `.` that is neither its first nor its last character. -/
def emailRegexMatch (clean : List Char) : Bool :=
  let localPart := clean.takeWhile emailOkChar
  match clean.drop localPart.length with
  | '@' :: rest =>
    !localPart.isEmpty && rest.all emailOkChar && ((rest.drop 1).dropLast.contains '.')
  | _ => false

/-- `DmarcValidatorImpl.isValidEmailFormat`: strip an optional `mailto:`
marker, then apply the email regex. -/
def isValidEmailFormat (address : String) : Bool :=
  let cleanAddress :=
    if "mailto:".data.isPrefixOf address.data then address.data.drop 7 else address.data
  emailRegexMatch cleanAddress

/-- Check 1 of `evaluatePolicy`: policy strength. -/
def checkPolicyStrength (policy : DmarcPolicy) : List ValidationIssue :=
  if policy.policy = "none" then
    [{ type := "weak_policy", severity := "warning",
       message := "DMARC policy is set to \"none\" which provides no protection",
       recommendation := "Consider upgrading to \"quarantine\" or \"reject\" policy for better email security" }]
  else []

/-- Check 2 of `evaluatePolicy`: percentage coverage. -/
def checkPercentage (policy : DmarcPolicy) : List ValidationIssue :=
  match policy.percentage with
  | some p =>
    if p < 100 then
      [{ type := "configuration_issue", severity := "info",
         message := "DMARC policy applies to only " ++ toString p ++ "% of messages",
         recommendation := "Consider setting pct=100 for full protection once you are confident in your configuration" }]
    else []
  | none => []

/-- Check 3 of `evaluatePolicy`: presence of reporting addresses. -/
def checkReportingPresence (policy : DmarcPolicy) : List ValidationIssue :=
  match policy.reportingAddresses with
  | none =>
    [{ type := "configuration_issue", severity := "info",
       message := "No reporting addresses configured (rua/ruf)",
       recommendation := "Add reporting addresses to receive DMARC reports and monitor email authentication" }]
  | some l =>
    if l.length = 0 then
      [{ type := "configuration_issue", severity := "info",
         message := "No reporting addresses configured (rua/ruf)",
         recommendation := "Add reporting addresses to receive DMARC reports and monitor email authentication" }]
    else []

/-- Check 4 of `evaluatePolicy`: subdomain policy. -/
def checkSubdomainPolicy (policy : DmarcPolicy) : List ValidationIssue :=
  match policy.subdomainPolicy with
  | none =>
    [{ type := "configuration_issue", severity := "info",
       message := "No explicit subdomain policy set",
       recommendation := "Consider setting \"sp\" tag to explicitly control subdomain behavior" }]
  | some sp =>
    if sp = "none" ∧ policy.policy ≠ "none" then
      [{ type := "weak_policy", severity := "warning",
         message := "Subdomain policy is weaker than main domain policy",
         recommendation := "Consider aligning subdomain policy with main domain policy for consistent protection" }]
    else []

/-- Check 5 of `evaluatePolicy`: alignment strictness. -/
def checkAlignment (policy : DmarcPolicy) : List ValidationIssue :=
  match policy.alignment with
  | some al =>
    if al.spf = "relaxed" ∧ al.dkim = "relaxed" then
      [{ type := "alignment_issue", severity := "info",
         message := "Both SPF and DKIM alignment are set to relaxed",
         recommendation := "Consider strict alignment for stronger authentication requirements" }]
    else []
  | none => []

/-- The issue emitted for one malformed reporting address. -/
def addrIssue (address : String) : ValidationIssue :=
  { type := "syntax_error", severity := "error",
    message := "Invalid reporting address format: " ++ address,
    recommendation := "Ensure reporting addresses follow the format: mailto:user@domain.com" }

/-- The `for (const address of policy.reportingAddresses)` loop of check 6. -/
def checkAddressList : List String → List ValidationIssue
  | [] => []
  | a :: rest =>
    (if isValidEmailFormat a then [] else [addrIssue a]) ++ checkAddressList rest

/-- Check 6 of `evaluatePolicy`: syntax of each reporting address. -/
def checkReportingSyntax (policy : DmarcPolicy) : List ValidationIssue :=
  match policy.reportingAddresses with
  | some l => checkAddressList l
  | none => []

/-- `DmarcValidatorImpl.evaluatePolicy`: the six checks run in source
order, each appending its issues to the accumulating array. -/
def evaluatePolicy (policy : DmarcPolicy) : List ValidationIssue :=
  let issues : List ValidationIssue := []
  let issues := issues ++ checkPolicyStrength policy
  let issues := issues ++ checkPercentage policy
  let issues := issues ++ checkReportingPresence policy
  let issues := issues ++ checkSubdomainPolicy policy
  let issues := issues ++ checkAlignment policy
  let issues := issues ++ checkReportingSyntax policy
  issues

/-! ### TTL cache (`CacheService` in `app.module.ts`)

Instants are `Int` milliseconds; `new Date()` at a call site becomes an
explicit `now` argument. The backing `Map` is an association list in
insertion order: `Map.set` replaces in place or appends, `Map.delete`
removes the key's entry. -/

/-- A `CacheEntry<T>`. -/
structure CacheEntry (α : Type) where
  data : α
  expiresAt : Int
deriving DecidableEq, Repr

/-- The `Map<string, CacheEntry<any>>` backing store. -/
abbrev CacheMap (α : Type) : Type := List (String × CacheEntry α)

/-- `Map.prototype.set`: replace the entry in place, or append a new one. -/
def mapSet {α : Type} : CacheMap α → String → CacheEntry α → CacheMap α
  | [], k, e => [(k, e)]
  | (k', e') :: rest, k, e =>
    if k' = k then (k, e) :: rest else (k', e') :: mapSet rest k e

/-- `Map.prototype.delete` (dropping the returned Boolean). -/
def mapDelete {α : Type} : CacheMap α → String → CacheMap α
  | [], _ => []
  | (k', e') :: rest, k =>
    if k' = k then rest else (k', e') :: mapDelete rest k

namespace CacheService

/-- `defaultTtlMinutes = 60`. -/
def defaultTtlMinutes : Int := 60

/-- `ttlMinutes || this.defaultTtlMinutes`: an absent or zero (falsy)
argument falls back to the default. -/
def resolveTtl (ttlMinutes : Option Int) : Int :=
  match ttlMinutes with
  | none => defaultTtlMinutes
  | some t => if t = 0 then defaultTtlMinutes else t

/-- `CacheService.set`: store the value with expiry `now + ttl` minutes. -/
def set {α : Type} (cache : CacheMap α) (key : String) (data : α)
    (ttlMinutes : Option Int) (now : Int) : CacheMap α :=
  mapSet cache key { data := data, expiresAt := now + resolveTtl ttlMinutes * 60000 }

/-- `CacheService.getWithInfo`: `found` is modelled by `Option.isSome`;
reading an expired entry deletes it. Returns the data and the updated
map. -/
def getWithInfo {α : Type} (cache : CacheMap α) (key : String) (now : Int) :
    Option α × CacheMap α :=
  match cache.lookup key with
  | none => (none, cache)
  | some entry =>
    if now > entry.expiresAt then (none, mapDelete cache key)
    else (some entry.data, cache)

/-- `CacheService.get` returns `getWithInfo(...).data`. -/
def get {α : Type} (cache : CacheMap α) (key : String) (now : Int) :
    Option α × CacheMap α :=
  getWithInfo cache key now

/-- `CacheService.has`: like `get`, also deleting an expired entry. -/
def has {α : Type} (cache : CacheMap α) (key : String) (now : Int) :
    Bool × CacheMap α :=
  match cache.lookup key with
  | none => (false, cache)
  | some entry =>
    if now > entry.expiresAt then (false, mapDelete cache key)
    else (true, cache)

/-- `CacheService.cleanup`: delete every expired entry, returning how many
were removed together with the surviving map. -/
def cleanup {α : Type} (now : Int) : CacheMap α → Nat × CacheMap α
  | [] => (0, [])
  | (k, e) :: rest =>
    let r := cleanup now rest
    if now > e.expiresAt then (r.1 + 1, r.2) else (r.1, (k, e) :: r.2)

/-- `CacheService.getOrSet`: on a live hit return the cached data without
computing; otherwise compute (`fval` is the value `computeFn` resolves to),
store it via `set` with the given TTL, and return it. The third component
counts `computeFn` invocations. -/
def getOrSet {α : Type} (cache : CacheMap α) (key : String) (fval : α)
    (ttlMinutes : Option Int) (now : Int) : α × CacheMap α × Nat :=
  match getWithInfo cache key now with
  | (some v, cache') => (v, cache', 0)
  | (none, cache') => (fval, set cache' key fval ttlMinutes now, 1)

end CacheService

/-! ### Vote ledger (`IpBlockerService`)

The `Set<string>` is a list of member keys in insertion order; `Set.add`
appends when the key is absent. -/

namespace IpBlockerService

/-- `createVoteKey`: the composite key `ip + ":" + domain`. -/
def createVoteKey (ipAddress domain : String) : String :=
  ipAddress ++ ":" ++ domain

/-- `hasVoted`: membership of the composite key. -/
def hasVoted (voteRestrictions : List String) (ipAddress domain : String) : Bool :=
  decide (createVoteKey ipAddress domain ∈ voteRestrictions)

/-- `recordVote`: `Set.add` of the composite key. -/
def recordVote (voteRestrictions : List String) (ipAddress domain : String) :
    List String :=
  if createVoteKey ipAddress domain ∈ voteRestrictions then voteRestrictions
  else voteRestrictions ++ [createVoteKey ipAddress domain]

/-- `getVoteCount`: `Set.size`. -/
def getVoteCount (voteRestrictions : List String) : Nat :=
  voteRestrictions.length

end IpBlockerService

/-! ### Registry sort (`DomainsController.getDomainRegistry`) -/

/-- The fields of a `DomainEntry` the registry comparator reads; `upvotes`
is a JS number, `lastChecked` a `Date` (here: `Int` milliseconds). The
domain name stands in for all the payload the sort carries along. -/
structure RegistryEntry where
  domain : String
  upvotes : Int
  lastChecked : Int
deriving DecidableEq, Repr

/-- The comparator passed to `domains.sort`: negative means `a` sorts
before `b`. Higher upvotes first, then more recent `lastChecked` first. -/
def registryCompare (a b : RegistryEntry) : Int :=
  if a.upvotes ≠ b.upvotes then b.upvotes - a.upvotes
  else b.lastChecked - a.lastChecked

/-- The `≤`-shape of the comparator: `a` may precede `b`. -/
def registryLe (a b : RegistryEntry) : Bool :=
  registryCompare a b ≤ 0

/-- `Array.prototype.sort` with `registryCompare`. ECMAScript requires
`sort` to be stable, so it is modelled as a stable merge sort ordered by
the comparator. -/
def getDomainRegistrySort (domains : List RegistryEntry) : List RegistryEntry :=
  domains.mergeSort registryLe

/-! ### Derived views of the parser used by the claims -/

/-- The values of the `pct` pairs of a segment list, in order, as the
dispatch loop sees them. -/
def pctValuesOf (pairs : List (List Char)) : List (List Char) :=
  pairs.filterMap fun pair =>
    match kvOf pair with
    | some kv => if jsToLower kv.1 = "pct".data then some kv.2 else none
    | none => none

/-- A `pct` value the dispatch accepts: `parseInt` succeeds and the result
lies in `[0, 100]`. -/
def validPctValB (v : List Char) : Bool :=
  match jsParseInt v with
  | some n => decide (0 ≤ n ∧ n ≤ 100)
  | none => false

/-- Modelled from the spec: "`pct` value is … an integer in `[0,100]`" —
a string that is, in its entirety, an optionally signed decimal integer
(no trailing characters). Used only to exhibit where the code diverges
from that reading. -/
def isIntegerString (v : List Char) : Bool :=
  match v with
  | '-' :: ds => !ds.isEmpty && ds.all Char.isDigit
  | '+' :: ds => !ds.isEmpty && ds.all Char.isDigit
  | ds => !ds.isEmpty && ds.all Char.isDigit

/-- Key/value extraction as a split on the first `=`: the trimmed text
before the first `=` is the key and the trimmed text between the first and
the second `=` (to the end when there is no second `=`) is the value;
segments without `=` or with an empty key are skipped. -/
def kvFirstSplit (pair : List Char) : Option (List Char × List Char) :=
  if '=' ∈ pair then
    let k := jsTrim (pair.takeWhile (fun c => c ≠ '='))
    let v := jsTrim (((pair.dropWhile (fun c => c ≠ '=')).tail).takeWhile (fun c => c ≠ '='))
    if k = [] then none else some (k, v)
  else none

/-- The loop body with `kvFirstSplit` in place of `kvOf`. -/
def processPairFE (pair : List Char) (policy : DmarcPolicy) :
    Except String DmarcPolicy :=
  match kvFirstSplit pair with
  | none => .ok policy
  | some kv => processKV kv.1 kv.2 policy

/-- The loop with `kvFirstSplit` in place of `kvOf`. -/
def processPairsFE : List (List Char) → DmarcPolicy → Except String DmarcPolicy
  | [], policy => .ok policy
  | pair :: rest, policy =>
    match processPairFE pair policy with
    | .error e => .error e
    | .ok policy2 => processPairsFE rest policy2

/-- The parser described segment-wise: split the trimmed record on `;`,
trim the segments, drop the empty ones, and read each remaining segment
with `kvFirstSplit`. -/
def parseDmarcRecordFirstEq (record : String) : Except String DmarcPolicy :=
  if record.data = [] then
    .error "Invalid DMARC record: record must be a non-empty string"
  else
    let cleanRecord := jsTrim record.data
    if "v=DMARC1".data.isPrefixOf cleanRecord then
      processPairsFE (pairsOf record)
        { version := "DMARC1", policy := "none", rawRecord := String.mk cleanRecord }
    else
      .error "Invalid DMARC record: must start with v=DMARC1"

/-! ### Theorems -/

section VoteLedger

open IpBlockerService

/-- Composite keys with the same IP agree exactly when the domains do. -/
theorem createVoteKey_inj_domain (ip d1 d2 : String) :
    createVoteKey ip d1 = createVoteKey ip d2 ↔ d1 = d2 := by
  simp [createVoteKey, String.ext_iff, String.data_append]

/-- Composite keys with the same domain agree exactly when the IPs do. -/
theorem createVoteKey_inj_ip (ip1 ip2 d : String) :
    createVoteKey ip1 d = createVoteKey ip2 d ↔ ip1 = ip2 := by
  simp [createVoteKey, String.ext_iff, String.data_append, List.append_left_inj]

/-- Claim C8: `recordVote` is idempotent — after the first
`recordVote(ip, domain)` the pair reads as voted and repeating the call
leaves the ledger (hence its size) unchanged; a vote for the same IP and a
different domain, or the same domain and a different IP, neither reads as
voted because of this vote nor stops reading as voted; and a first vote for
a pair grows the ledger by exactly one entry while a repeat vote keeps the
size. -/
theorem recordVote_idempotent_and_independent (S : List String) (ip d : String) :
    hasVoted (recordVote S ip d) ip d = true
    ∧ recordVote (recordVote S ip d) ip d = recordVote S ip d
    ∧ (∀ d2, d2 ≠ d →
        hasVoted (recordVote S ip d) ip d2 = hasVoted S ip d2)
    ∧ (∀ ip2, ip2 ≠ ip →
        hasVoted (recordVote S ip d) ip2 d = hasVoted S ip2 d)
    ∧ (hasVoted S ip d = false →
        getVoteCount (recordVote S ip d) = getVoteCount S + 1)
    ∧ (hasVoted S ip d = true →
        getVoteCount (recordVote S ip d) = getVoteCount S) := by
  by_cases hmem : createVoteKey ip d ∈ S
  · refine ⟨by simp [hasVoted, recordVote, hmem], by simp [recordVote, hmem], ?_, ?_, ?_, ?_⟩
    · intro d2 _; simp [hasVoted, recordVote, hmem]
    · intro ip2 _; simp [hasVoted, recordVote, hmem]
    · intro hfalse; simp [hasVoted, hmem] at hfalse
    · intro _; simp [recordVote, hmem]
  · refine ⟨by simp [hasVoted, recordVote, hmem], ?_, ?_, ?_, ?_, ?_⟩
    · simp [recordVote, hmem]
    · intro d2 hne
      have : createVoteKey ip d2 ≠ createVoteKey ip d := by
        simpa [createVoteKey_inj_domain] using hne
      simp [hasVoted, recordVote, hmem, this]
    · intro ip2 hne
      have : createVoteKey ip2 d ≠ createVoteKey ip d := by
        simpa [createVoteKey_inj_ip] using hne
      simp [hasVoted, recordVote, hmem, this]
    · intro _; simp [getVoteCount, recordVote, hmem]
    · intro htrue; simp [hasVoted, hmem] at htrue

/-- Concrete instance of C8: the spec's scenario 4 ledger. -/
theorem recordVote_idempotent_and_independent_witness :
    hasVoted (recordVote [] "10.0.0.1" "a.com") "10.0.0.1" "a.com" = true
    ∧ hasVoted (recordVote [] "10.0.0.1" "a.com") "10.0.0.1" "b.com"
        = hasVoted [] "10.0.0.1" "b.com"
    ∧ getVoteCount (recordVote [] "10.0.0.1" "a.com") = getVoteCount [] + 1 :=
  ⟨(recordVote_idempotent_and_independent [] "10.0.0.1" "a.com").1,
   (recordVote_idempotent_and_independent [] "10.0.0.1" "a.com").2.2.1 "b.com" (by decide),
   (recordVote_idempotent_and_independent [] "10.0.0.1" "a.com").2.2.2.2.1 (by decide)⟩

end VoteLedger


section Cache

/-- After `mapSet`, the key reads back the freshly stored entry. -/
theorem lookup_mapSet_self {α : Type} (c : CacheMap α) (k : String) (e : CacheEntry α) :
    (mapSet c k e).lookup k = some e := by
  induction c with
  | nil => simp [mapSet, List.lookup]
  | cons p rest ih =>
    obtain ⟨k', e'⟩ := p
    by_cases h : k' = k
    · simp [mapSet, h, List.lookup]
    · have hne : (k == k') = false := beq_false_of_ne fun hh => h hh.symm
      simp [mapSet, h, List.lookup, hne, ih]

/-- `cleanup` keeps exactly the live entries, in order, and returns the
number of expired entries it removed. -/
theorem cleanup_filter_count {α : Type} (now : Int) (c : CacheMap α) :
    (CacheService.cleanup now c).2 = c.filter (fun p => decide (now ≤ p.2.expiresAt))
    ∧ (CacheService.cleanup now c).1 = c.countP (fun p => decide (p.2.expiresAt < now)) := by
  induction c with
  | nil => simp [CacheService.cleanup]
  | cons p rest ih =>
    by_cases h : now > p.2.expiresAt
    · have h1 : ¬ now ≤ p.2.expiresAt := by omega
      have h2 : p.2.expiresAt < now := by omega
      simp [CacheService.cleanup, h, ih.1, ih.2, List.countP_cons, h1, h2]
    · have h1 : now ≤ p.2.expiresAt := by omega
      have h2 : ¬ p.2.expiresAt < now := by omega
      simp [CacheService.cleanup, h, ih.1, ih.2, List.countP_cons, h1, h2]

/-- Claim C7: an entry stored with a positive TTL is retrievable through
`get` and `has` at the moment it is stored; at any instant strictly past
its `expiresAt` deadline, `get` reports `none` and `has` reports `false`;
and `cleanup` removes exactly the expired entries, keeps every live entry
unchanged and in order, and returns the removed count. -/
theorem cache_set_get_has_expiry_cleanup {α : Type} (c : CacheMap α) (k : String)
    (v : α) (t now now2 : Int) (ht : 0 < t) :
    (CacheService.get (CacheService.set c k v (some t) now) k now).1 = some v
    ∧ (CacheService.has (CacheService.set c k v (some t) now) k now).1 = true
    ∧ (now2 > now + t * 60000 →
        (CacheService.get (CacheService.set c k v (some t) now) k now2).1 = none
        ∧ (CacheService.has (CacheService.set c k v (some t) now) k now2).1 = false)
    ∧ (CacheService.cleanup now c).2 = c.filter (fun p => decide (now ≤ p.2.expiresAt))
    ∧ (CacheService.cleanup now c).1 = c.countP (fun p => decide (p.2.expiresAt < now)) := by
  have htne : t ≠ 0 := by omega
  have hset : CacheService.set c k v (some t) now
      = mapSet c k ⟨v, now + t * 60000⟩ := by
    simp [CacheService.set, CacheService.resolveTtl, htne]
  have hlook := lookup_mapSet_self c k (⟨v, now + t * 60000⟩ : CacheEntry α)
  have hlive : ¬ now > now + t * 60000 := by omega
  refine ⟨?_, ?_, ?_, (cleanup_filter_count now c).1, (cleanup_filter_count now c).2⟩
  · simp [CacheService.get, CacheService.getWithInfo, hset, hlook, hlive]
  · simp [CacheService.has, hset, hlook, hlive]
  · intro hpast
    constructor
    · simp [CacheService.get, CacheService.getWithInfo, hset, hlook, hpast]
    · simp [CacheService.has, hset, hlook, hpast]

/-- Concrete instance of C7: TTL 1 minute, read back at once and after
61 seconds. -/
theorem cache_set_get_has_expiry_cleanup_witness :
    (CacheService.get (CacheService.set ([] : CacheMap Nat) "k" 7 (some 1) 0) "k" 0).1 = some 7
    ∧ (CacheService.get (CacheService.set ([] : CacheMap Nat) "k" 7 (some 1) 0) "k" 61000).1 = none :=
  ⟨(cache_set_get_has_expiry_cleanup [] "k" 7 1 0 61000 (by decide)).1,
   ((cache_set_get_has_expiry_cleanup [] "k" 7 1 0 61000 (by decide)).2.2.1 (by decide)).1⟩

/-- Claim C10 counterexample: `set` with an explicit negative
`ttlMinutes` (a truthy value, so not replaced by the default) stores an
entry whose deadline already lies in the past — it is present in the map
yet unreadable at the very instant it was stored. -/
theorem set_negative_ttl_stores_expired :
    (CacheService.set ([] : CacheMap Nat) "k" 7 (some (-1)) 0).lookup "k"
      = some ⟨7, -60000⟩
    ∧ (CacheService.get (CacheService.set ([] : CacheMap Nat) "k" 7 (some (-1)) 0) "k" 0).1
      = none := by
  exact ⟨by decide, by decide⟩

/-- Claim C10 (amended): `set` with `ttlMinutes = 0` behaves exactly like
`set` with the TTL omitted — the falsy-or picks the 60-minute default —
and for every non-negative explicit TTL the stored entry is live
immediately; only a negative TTL can store an already-expired entry. -/
theorem set_zero_ttl_uses_default {α : Type} (c : CacheMap α) (k : String) (v : α)
    (now : Int) (t : Int) (htnn : 0 ≤ t) :
    CacheService.set c k v (some 0) now = CacheService.set c k v none now
    ∧ (CacheService.get (CacheService.set c k v (some 0) now) k now).1 = some v
    ∧ (CacheService.get (CacheService.set c k v (some t) now) k now).1 = some v := by
  have hzero : CacheService.set c k v (some 0) now = CacheService.set c k v none now := by
    simp [CacheService.set, CacheService.resolveTtl]
  have hdef : CacheService.set c k v none now
      = mapSet c k ⟨v, now + 3600000⟩ := by
    norm_num [CacheService.set, CacheService.resolveTtl, CacheService.defaultTtlMinutes]
  refine ⟨hzero, ?_, ?_⟩
  · have hlook := lookup_mapSet_self c k (⟨v, now + 3600000⟩ : CacheEntry α)
    have hlive : ¬ now > now + 3600000 := by omega
    simp [hzero, hdef, CacheService.get, CacheService.getWithInfo, hlook, hlive]
  · by_cases h0 : t = 0
    · have hlook := lookup_mapSet_self c k (⟨v, now + 3600000⟩ : CacheEntry α)
      have hlive : ¬ now > now + 3600000 := by omega
      rw [h0, hzero, hdef]
      simp [CacheService.get, CacheService.getWithInfo, hlook, hlive]
    · have hset : CacheService.set c k v (some t) now
          = mapSet c k ⟨v, now + t * 60000⟩ := by
        simp [CacheService.set, CacheService.resolveTtl, h0]
      have hlook := lookup_mapSet_self c k (⟨v, now + t * 60000⟩ : CacheEntry α)
      have hlive : ¬ now > now + t * 60000 := by omega
      simp [hset, CacheService.get, CacheService.getWithInfo, hlook, hlive]

/-- Concrete instance of C10 (amended). -/
theorem set_zero_ttl_uses_default_witness :
    CacheService.set ([] : CacheMap Nat) "k" 7 (some 0) 0 = CacheService.set [] "k" 7 none 0
    ∧ (CacheService.get (CacheService.set ([] : CacheMap Nat) "k" 7 (some 0) 0) "k" 0).1 = some 7 :=
  ⟨(set_zero_ttl_uses_default [] "k" 7 0 5 (by decide)).1,
   (set_zero_ttl_uses_default [] "k" 7 0 5 (by decide)).2.1⟩

/-- Claim C6: `getOrSet` on a live entry returns its value, leaves the map
alone and never invokes the compute function (invocation count 0); on a
miss or an expired entry it invokes the compute function exactly once,
stores its result under the key through `set` with the given TTL, returns
it, and a `get` at any instant up to the new deadline yields that same
value. -/
theorem getOrSet_cache_first {α : Type} (c : CacheMap α) (k : String) (f : α)
    (ttl : Option Int) (now : Int) :
    (∀ e : CacheEntry α, c.lookup k = some e → ¬ now > e.expiresAt →
        CacheService.getOrSet c k f ttl now = (e.data, c, 0))
    ∧ ((CacheService.getWithInfo c k now).1 = none →
        CacheService.getOrSet c k f ttl now
          = (f, CacheService.set (CacheService.getWithInfo c k now).2 k f ttl now, 1)
        ∧ (∀ now2, ¬ now2 > now + CacheService.resolveTtl ttl * 60000 →
            (CacheService.get (CacheService.getOrSet c k f ttl now).2.1 k now2).1 = some f)) := by
  constructor
  · intro e hlook hlive
    simp [CacheService.getOrSet, CacheService.getWithInfo, hlook, hlive]
  · intro hmiss
    have h2 : CacheService.getWithInfo c k now
        = (none, (CacheService.getWithInfo c k now).2) :=
      Prod.ext hmiss rfl
    have hcase : CacheService.getOrSet c k f ttl now
        = (f, CacheService.set (CacheService.getWithInfo c k now).2 k f ttl now, 1) := by
      rw [CacheService.getOrSet, h2]
    refine ⟨hcase, ?_⟩
    intro now2 hnot
    set c2 := (CacheService.getWithInfo c k now).2 with hc2
    have hset : CacheService.set c2 k f ttl now
        = mapSet c2 k ⟨f, now + CacheService.resolveTtl ttl * 60000⟩ := rfl
    have hlook := lookup_mapSet_self c2 k
      (⟨f, now + CacheService.resolveTtl ttl * 60000⟩ : CacheEntry α)
    rw [hcase]
    simp only [CacheService.get, CacheService.getWithInfo, hset, hlook]
    simp [hnot]

/-- Concrete instances of C6: a live hit never computes; a miss computes
once and the value is readable afterwards. -/
theorem getOrSet_cache_first_witness :
    CacheService.getOrSet [("k", (⟨5, 100⟩ : CacheEntry Nat))] "k" 9 none 0
      = (5, [("k", ⟨5, 100⟩)], 0)
    ∧ CacheService.getOrSet ([] : CacheMap Nat) "k" 9 none 0
      = (9, CacheService.set [] "k" 9 none 0, 1)
    ∧ (CacheService.get (CacheService.getOrSet ([] : CacheMap Nat) "k" 9 none 0).2.1 "k" 0).1
      = some 9 :=
  ⟨(getOrSet_cache_first [("k", ⟨5, 100⟩)] "k" 9 none 0).1 ⟨5, 100⟩ (by decide) (by decide),
   ((getOrSet_cache_first [] "k" 9 none 0).2 (by decide)).1,
   ((getOrSet_cache_first [] "k" 9 none 0).2 (by decide)).2 0 (by decide)⟩

end Cache

section RegistrySort

/-- The comparator accepts `a` before `b` exactly when `a` has strictly
more upvotes, or equal upvotes and a `lastChecked` at least as recent. -/
theorem registryLe_iff (a b : RegistryEntry) :
    registryLe a b = true ↔
      (b.upvotes < a.upvotes ∨ (a.upvotes = b.upvotes ∧ b.lastChecked ≤ a.lastChecked)) := by
  simp only [registryLe, registryCompare]
  by_cases h : a.upvotes = b.upvotes <;> (simp [h]; try omega)

/-- Claim C9: the registry sort returns a permutation of its input that is
non-increasing in upvotes, non-increasing in `lastChecked` within runs of
equal upvotes, and stable — entries sharing an `(upvotes, lastChecked)`
key keep their relative input order. -/
theorem registry_sort_sorted_stable_perm (l : List RegistryEntry) (u t : Int) :
    (getDomainRegistrySort l).Perm l
    ∧ (getDomainRegistrySort l).Pairwise (fun a b =>
        b.upvotes < a.upvotes ∨ (a.upvotes = b.upvotes ∧ b.lastChecked ≤ a.lastChecked))
    ∧ (getDomainRegistrySort l).filter (fun e => e.upvotes == u && e.lastChecked == t)
      = l.filter (fun e => e.upvotes == u && e.lastChecked == t) := by
  have trans : ∀ a b c : RegistryEntry, registryLe a b → registryLe b c → registryLe a c := by
    intro a b c hab hbc
    rw [registryLe_iff] at *
    omega
  have total : ∀ a b : RegistryEntry, registryLe a b || registryLe b a := by
    intro a b
    rw [Bool.or_eq_true, registryLe_iff, registryLe_iff]
    omega
  refine ⟨List.mergeSort_perm l registryLe, ?_, ?_⟩
  · have hs := List.sorted_mergeSort trans total l
    exact hs.imp fun hab => (registryLe_iff _ _).mp hab
  · have hpw : (l.filter (fun e => e.upvotes == u && e.lastChecked == t)).Pairwise
        (fun a b => registryLe a b = true) := by
      apply List.pairwise_of_forall_mem_list
      intro a ha b hb
      have hpa := List.of_mem_filter ha
      have hpb := List.of_mem_filter hb
      simp only [Bool.and_eq_true, beq_iff_eq] at hpa hpb
      rw [registryLe_iff]
      omega
    have hsub2 := List.sublist_mergeSort trans total hpw (List.filter_sublist l)
    have hidem : (l.filter (fun e => e.upvotes == u && e.lastChecked == t)).filter
        (fun e => e.upvotes == u && e.lastChecked == t)
        = l.filter (fun e => e.upvotes == u && e.lastChecked == t) := by
      apply List.filter_eq_self.mpr
      intro a ha
      exact (List.mem_filter.mp ha).2
    have hsub3 := hsub2.filter (fun e => e.upvotes == u && e.lastChecked == t)
    rw [hidem] at hsub3
    have hperm := (List.mergeSort_perm l registryLe).filter
      (fun e => e.upvotes == u && e.lastChecked == t)
    exact (hsub3.eq_of_length hperm.length_eq.symm).symm

end RegistrySort

section ParserConcrete

/-- Claim C3: the spec's scenario-2 record parses to policy "reject",
percentage 50, exactly the one reporting address, dkim alignment "strict"
and spf alignment "relaxed"; and the single-letter alignment values map
`r` to "relaxed" and `s` to "strict" while the long forms pass through. -/
theorem parse_reject_pct50_alignment :
    parseDmarcRecord "v=DMARC1; p=reject; pct=50; rua=mailto:dmarc@example.com; adkim=s; aspf=r"
      = .ok { version := "DMARC1", policy := "reject", percentage := some 50,
              reportingAddresses := some ["mailto:dmarc@example.com"],
              alignment := some { spf := "relaxed", dkim := "strict" },
              rawRecord := "v=DMARC1; p=reject; pct=50; rua=mailto:dmarc@example.com; adkim=s; aspf=r" }
    ∧ parseDmarcRecord "v=DMARC1; adkim=r; aspf=s"
      = .ok { version := "DMARC1", policy := "none",
              alignment := some { spf := "strict", dkim := "relaxed" },
              rawRecord := "v=DMARC1; adkim=r; aspf=s" }
    ∧ parseDmarcRecord "v=DMARC1; adkim=strict; aspf=relaxed"
      = .ok { version := "DMARC1", policy := "none",
              alignment := some { spf := "relaxed", dkim := "strict" },
              rawRecord := "v=DMARC1; adkim=strict; aspf=relaxed" } := by
  exact ⟨by decide, by decide, by decide⟩

end ParserConcrete

section Evaluate

/-- Every issue produced by the reporting-address loop is a syntax error. -/
theorem checkAddressList_type (l : List String) :
    ∀ i ∈ checkAddressList l, i.type = "syntax_error" := by
  induction l with
  | nil => simp [checkAddressList]
  | cons a rest ih =>
    intro i hi
    by_cases hv : isValidEmailFormat a
    · simp [checkAddressList, hv] at hi
      exact ih i hi
    · simp [checkAddressList, hv, addrIssue] at hi
      rcases hi with hi | hi
      · rw [hi]
      · exact ih i hi

/-- Claim C5: when the policy is "none", `evaluatePolicy` emits exactly
one issue of type `weak_policy`, that issue has severity `warning`, and —
for every policy — the output is the concatenation of the six checks in
their fixed source order: policy strength, percentage, reporting-address
presence, subdomain policy, alignment, then per-address syntax. -/
theorem evaluatePolicy_weak_once_and_ordered (policy : DmarcPolicy)
    (h : policy.policy = "none") :
    (evaluatePolicy policy).countP (fun i => i.type == "weak_policy") = 1
    ∧ (evaluatePolicy policy).countP
        (fun i => i.type == "weak_policy" && i.severity == "warning") = 1
    ∧ (∀ q : DmarcPolicy, evaluatePolicy q
        = checkPolicyStrength q ++ checkPercentage q ++ checkReportingPresence q
          ++ checkSubdomainPolicy q ++ checkAlignment q ++ checkReportingSyntax q) := by
  have horder : ∀ q : DmarcPolicy, evaluatePolicy q
      = checkPolicyStrength q ++ checkPercentage q ++ checkReportingPresence q
        ++ checkSubdomainPolicy q ++ checkAlignment q ++ checkReportingSyntax q := by
    intro q
    simp [evaluatePolicy, List.append_assoc]
  have c1w : (checkPolicyStrength policy).countP (fun i => i.type == "weak_policy") = 1
      ∧ (checkPolicyStrength policy).countP
          (fun i => i.type == "weak_policy" && i.severity == "warning") = 1 := by
    simp [checkPolicyStrength, h, List.countP_cons]
  have c2w : (checkPercentage policy).countP (fun i => i.type == "weak_policy") = 0
      ∧ (checkPercentage policy).countP
          (fun i => i.type == "weak_policy" && i.severity == "warning") = 0 := by
    unfold checkPercentage
    cases policy.percentage with
    | none => simp
    | some p => by_cases hp : p < 100 <;> simp [hp, List.countP_cons]
  have c3w : (checkReportingPresence policy).countP (fun i => i.type == "weak_policy") = 0
      ∧ (checkReportingPresence policy).countP
          (fun i => i.type == "weak_policy" && i.severity == "warning") = 0 := by
    unfold checkReportingPresence
    cases policy.reportingAddresses with
    | none => simp [List.countP_cons]
    | some l => by_cases hl : l.length = 0 <;> simp [hl, List.countP_cons]
  have c4w : (checkSubdomainPolicy policy).countP (fun i => i.type == "weak_policy") = 0
      ∧ (checkSubdomainPolicy policy).countP
          (fun i => i.type == "weak_policy" && i.severity == "warning") = 0 := by
    unfold checkSubdomainPolicy
    cases policy.subdomainPolicy with
    | none => simp [List.countP_cons]
    | some sp => simp [h, List.countP_cons]
  have c5w : (checkAlignment policy).countP (fun i => i.type == "weak_policy") = 0
      ∧ (checkAlignment policy).countP
          (fun i => i.type == "weak_policy" && i.severity == "warning") = 0 := by
    unfold checkAlignment
    cases policy.alignment with
    | none => simp
    | some al =>
      by_cases ha : al.spf = "relaxed" ∧ al.dkim = "relaxed" <;> simp [ha, List.countP_cons]
  have c6w : (checkReportingSyntax policy).countP (fun i => i.type == "weak_policy") = 0
      ∧ (checkReportingSyntax policy).countP
          (fun i => i.type == "weak_policy" && i.severity == "warning") = 0 := by
    unfold checkReportingSyntax
    cases policy.reportingAddresses with
    | none => simp
    | some l =>
      constructor <;>
      · apply List.countP_eq_zero.mpr
        intro i hi
        have := checkAddressList_type l i hi
        simp [this]
  refine ⟨?_, ?_, horder⟩
  · rw [horder policy]
    simp [List.countP_append, c1w.1, c2w.1, c3w.1, c4w.1, c5w.1, c6w.1]
  · rw [horder policy]
    simp [List.countP_append, c1w.2, c2w.2, c3w.2, c4w.2, c5w.2, c6w.2]

/-- Concrete instance of C5: the spec's scenario-1 policy. -/
theorem evaluatePolicy_weak_once_and_ordered_witness :
    (evaluatePolicy ⟨"DMARC1", "none", none, none, none, none, "v=DMARC1; p=none"⟩).countP
      (fun i => i.type == "weak_policy") = 1 :=
  (evaluatePolicy_weak_once_and_ordered
    ⟨"DMARC1", "none", none, none, none, none, "v=DMARC1; p=none"⟩ rfl).1

end Evaluate

section VersionClaims

/-- A `v` tag whose value is not `DMARC1` throws, whatever the
in-progress policy. -/
theorem processKV_v_bad (key value : List Char) (r : DmarcPolicy)
    (hk : jsToLower key = "v".data) (hv : value ≠ "DMARC1".data) :
    processKV key value r = .error ("Invalid DMARC version: " ++ String.mk value) := by
  simp [processKV, hk, hv]

/-- If some pair of the list throws for every in-progress policy, the
whole loop throws. -/
theorem processPairs_error_of_mem (pairs : List (List Char)) (p : DmarcPolicy)
    (pair : List Char) (hmem : pair ∈ pairs)
    (hbad : ∀ r : DmarcPolicy, ∃ e, processPair pair r = .error e) :
    ∃ e, processPairs pairs p = .error e := by
  induction pairs generalizing p with
  | nil => cases hmem
  | cons a rest ih =>
    rcases List.mem_cons.mp hmem with rfl | hmem2
    · obtain ⟨e, he⟩ := hbad p
      exact ⟨e, by simp [processPairs, he]⟩
    · cases hq : processPair a p with
      | error e => exact ⟨e, by simp [processPairs, hq]⟩
      | ok p2 =>
        obtain ⟨e, he⟩ := ih p2 hmem2
        exact ⟨e, by simp [processPairs, hq, he]⟩

/-- One successful dispatch step keeps `version = "DMARC1"`. -/
theorem processKV_version_invariant (key value : List Char) (p q : DmarcPolicy)
    (hp : p.version = "DMARC1") (h : processKV key value p = .ok q) :
    q.version = "DMARC1" := by
  unfold processKV at h
  by_cases h1 : jsToLower key = "v".data
  · rw [if_pos h1] at h
    by_cases h2 : value = "DMARC1".data
    · rw [if_pos h2] at h
      injection h with h
      subst h
      rw [h2]
    · rw [if_neg h2] at h
      cases h
  · rw [if_neg h1] at h
    by_cases h2 : jsToLower key = "p".data
    · rw [if_pos h2] at h
      by_cases h3 : value = "none".data ∨ value = "quarantine".data ∨ value = "reject".data
      · rw [if_pos h3] at h
        injection h with h
        subst h
        exact hp
      · rw [if_neg h3] at h
        cases h
    · rw [if_neg h2] at h
      by_cases h3 : jsToLower key = "sp".data
      · rw [if_pos h3] at h
        by_cases h4 : value = "none".data ∨ value = "quarantine".data ∨ value = "reject".data
        · rw [if_pos h4] at h
          injection h with h
          subst h
          exact hp
        · rw [if_neg h4] at h
          cases h
      · rw [if_neg h3] at h
        by_cases h4 : jsToLower key = "pct".data
        · rw [if_pos h4] at h
          cases hpi : jsParseInt value with
          | none => rw [hpi] at h; cases h
          | some n =>
            rw [hpi] at h
            dsimp only at h
            by_cases h5 : n < 0 ∨ 100 < n
            · rw [if_pos h5] at h
              cases h
            · rw [if_neg h5] at h
              injection h with h
              subst h
              exact hp
        · rw [if_neg h4] at h
          by_cases h5 : jsToLower key = "rua".data ∨ jsToLower key = "ruf".data
          · rw [if_pos h5] at h
            injection h with h
            subst h
            exact hp
          · rw [if_neg h5] at h
            by_cases h6 : jsToLower key = "adkim".data
            · rw [if_pos h6] at h
              by_cases h7 : value = "r".data ∨ value = "s".data
                  ∨ value = "relaxed".data ∨ value = "strict".data
              · rw [if_pos h7] at h
                injection h with h
                subst h
                exact hp
              · rw [if_neg h7] at h
                cases h
            · rw [if_neg h6] at h
              by_cases h7 : jsToLower key = "aspf".data
              · rw [if_pos h7] at h
                by_cases h8 : value = "r".data ∨ value = "s".data
                    ∨ value = "relaxed".data ∨ value = "strict".data
                · rw [if_pos h8] at h
                  injection h with h
                  subst h
                  exact hp
                · rw [if_neg h8] at h
                  cases h
              · rw [if_neg h7] at h
                injection h with h
                subst h
                exact hp

/-- The whole loop keeps `version = "DMARC1"`. -/
theorem processPairs_version_invariant (pairs : List (List Char)) (p q : DmarcPolicy)
    (hp : p.version = "DMARC1") (h : processPairs pairs p = .ok q) :
    q.version = "DMARC1" := by
  induction pairs generalizing p with
  | nil =>
    simp [processPairs] at h
    rw [← h]; exact hp
  | cons a rest ih =>
    unfold processPairs at h
    cases hq : processPair a p with
    | error e => rw [hq] at h; cases h
    | ok p2 =>
      rw [hq] at h
      have hp2 : p2.version = "DMARC1" := by
        unfold processPair at hq
        cases hkv : kvOf a with
        | none => rw [hkv] at hq; cases hq; exact hp
        | some kv => rw [hkv] at hq; exact processKV_version_invariant kv.1 kv.2 p p2 hp hq
      exact ih p2 hp2 h

/-- Claim C2: the parse throws on an empty record, on a trimmed record
that does not start with the literal `v=DMARC1`, and on any record whose
pair list carries a `v` tag with a value other than `DMARC1`; in
particular `parse("v=DMARC2; p=none")` throws; and every successfully
parsed policy has version exactly "DMARC1". -/
theorem parse_requires_version_dmarc1 (record : String) :
    (record = "" → ∃ e, parseDmarcRecord record = .error e)
    ∧ ("v=DMARC1".data.isPrefixOf (jsTrim record.data) = false →
        ∃ e, parseDmarcRecord record = .error e)
    ∧ (∀ pair ∈ pairsOf record, ∀ k v, kvOf pair = some (k, v) →
        jsToLower k = "v".data → v ≠ "DMARC1".data →
        ∃ e, parseDmarcRecord record = .error e)
    ∧ parseDmarcRecord "v=DMARC2; p=none"
        = .error "Invalid DMARC record: must start with v=DMARC1"
    ∧ (∀ q, parseDmarcRecord record = .ok q → q.version = "DMARC1") := by
  refine ⟨?_, ?_, ?_, by decide, ?_⟩
  · intro hrec
    subst hrec
    exact ⟨_, rfl⟩
  · intro hpre
    unfold parseDmarcRecord
    by_cases hempty : record.data = []
    · exact ⟨"Invalid DMARC record: record must be a non-empty string", by simp [hempty]⟩
    · exact ⟨"Invalid DMARC record: must start with v=DMARC1", by simp [hempty, hpre]⟩
  · intro pair hmem k v hkv hk hv
    unfold parseDmarcRecord
    by_cases hempty : record.data = []
    · exact ⟨"Invalid DMARC record: record must be a non-empty string", by simp [hempty]⟩
    · by_cases hpre : "v=DMARC1".data.isPrefixOf (jsTrim record.data)
      · have hbad : ∀ r : DmarcPolicy, ∃ e, processPair pair r = .error e := by
          intro r
          exact ⟨"Invalid DMARC version: " ++ String.mk v,
            by simp [processPair, hkv, processKV_v_bad k v r hk hv]⟩
        obtain ⟨e, he⟩ := processPairs_error_of_mem (pairsOf record)
          { version := "DMARC1", policy := "none",
            rawRecord := String.mk (jsTrim record.data) } pair hmem hbad
        exact ⟨e, by simp [hempty, hpre, he]⟩
      · exact ⟨"Invalid DMARC record: must start with v=DMARC1", by simp [hempty, hpre]⟩
  · intro q h
    unfold parseDmarcRecord at h
    by_cases hempty : record.data = []
    · simp [hempty] at h
    · by_cases hpre : "v=DMARC1".data.isPrefixOf (jsTrim record.data)
      · simp [hempty, hpre] at h
        exact processPairs_version_invariant (pairsOf record) _ q rfl h
      · simp [hempty, hpre] at h

/-- Concrete instances of C2: the empty record and a repeated bad `v`
tag both throw; a good record parses with version "DMARC1". -/
theorem parse_requires_version_dmarc1_witness :
    (∃ e, parseDmarcRecord "" = .error e)
    ∧ (∃ e, parseDmarcRecord "v=DMARC1; v=DMARC2" = .error e)
    ∧ (∀ q, parseDmarcRecord "v=DMARC1; p=none" = .ok q → q.version = "DMARC1") :=
  ⟨(parse_requires_version_dmarc1 "").1 rfl,
   (parse_requires_version_dmarc1 "v=DMARC1; v=DMARC2").2.2.1
     "v=DMARC2".data (by decide) "v".data "DMARC2".data (by decide) (by decide) (by decide),
   (parse_requires_version_dmarc1 "v=DMARC1; p=none").2.2.2.2⟩

end VersionClaims

section PctClaims

/-- On a `pct` key the dispatch is exactly the `parseInt`-and-range
check. -/
theorem processKV_pct_eq (key value : List Char) (p : DmarcPolicy)
    (hk : jsToLower key = "pct".data) :
    processKV key value p
      = (match jsParseInt value with
        | none => .error ("Invalid percentage value: " ++ String.mk value)
        | some n =>
          if n < 0 ∨ 100 < n then .error ("Invalid percentage value: " ++ String.mk value)
          else .ok { p with percentage := some n }) := by
  have h1 : jsToLower key ≠ "v".data := by rw [hk]; decide
  have h2 : jsToLower key ≠ "p".data := by rw [hk]; decide
  have h3 : jsToLower key ≠ "sp".data := by rw [hk]; decide
  unfold processKV
  rw [if_neg h1, if_neg h2, if_neg h3, if_pos hk]

/-- A successful dispatch of a non-`pct` key leaves `percentage`
untouched. -/
theorem processKV_pct_invariant (key value : List Char) (p q : DmarcPolicy)
    (hk : jsToLower key ≠ "pct".data) (h : processKV key value p = .ok q) :
    q.percentage = p.percentage := by
  unfold processKV at h
  by_cases h1 : jsToLower key = "v".data
  · rw [if_pos h1] at h
    by_cases h2 : value = "DMARC1".data
    · rw [if_pos h2] at h
      injection h with h
      subst h
      rfl
    · rw [if_neg h2] at h
      cases h
  · rw [if_neg h1] at h
    by_cases h2 : jsToLower key = "p".data
    · rw [if_pos h2] at h
      by_cases h3 : value = "none".data ∨ value = "quarantine".data ∨ value = "reject".data
      · rw [if_pos h3] at h
        injection h with h
        subst h
        rfl
      · rw [if_neg h3] at h
        cases h
    · rw [if_neg h2] at h
      by_cases h3 : jsToLower key = "sp".data
      · rw [if_pos h3] at h
        by_cases h4 : value = "none".data ∨ value = "quarantine".data ∨ value = "reject".data
        · rw [if_pos h4] at h
          injection h with h
          subst h
          rfl
        · rw [if_neg h4] at h
          cases h
      · rw [if_neg h3] at h
        rw [if_neg hk] at h
        by_cases h5 : jsToLower key = "rua".data ∨ jsToLower key = "ruf".data
        · rw [if_pos h5] at h
          injection h with h
          subst h
          rfl
        · rw [if_neg h5] at h
          by_cases h6 : jsToLower key = "adkim".data
          · rw [if_pos h6] at h
            by_cases h7 : value = "r".data ∨ value = "s".data
                ∨ value = "relaxed".data ∨ value = "strict".data
            · rw [if_pos h7] at h
              injection h with h
              subst h
              rfl
            · rw [if_neg h7] at h
              cases h
          · rw [if_neg h6] at h
            by_cases h7 : jsToLower key = "aspf".data
            · rw [if_pos h7] at h
              by_cases h8 : value = "r".data ∨ value = "s".data
                  ∨ value = "relaxed".data ∨ value = "strict".data
              · rw [if_pos h8] at h
                injection h with h
                subst h
                rfl
              · rw [if_neg h8] at h
                cases h
            · rw [if_neg h7] at h
              injection h with h
              subst h
              rfl

/-- Through a successful run of the loop, every `pct` value passed the
`parseInt`-and-range check and `percentage` carries the fold of the `pct`
values over the starting value. -/
theorem processPairs_pct (pairs : List (List Char)) (p q : DmarcPolicy)
    (h : processPairs pairs p = .ok q) :
    (∀ v ∈ pctValuesOf pairs, validPctValB v = true)
    ∧ q.percentage
        = (pctValuesOf pairs).foldl (fun _ v => jsParseInt v) p.percentage := by
  induction pairs generalizing p with
  | nil =>
    simp [processPairs] at h
    subst h
    exact ⟨by simp [pctValuesOf], by simp [pctValuesOf]⟩
  | cons a rest ih =>
    unfold processPairs at h
    cases hq : processPair a p with
    | error e => rw [hq] at h; cases h
    | ok p2 =>
      rw [hq] at h
      obtain ⟨ihv, ihp⟩ := ih p2 h
      unfold processPair at hq
      cases hkv : kvOf a with
      | none =>
        rw [hkv] at hq
        injection hq with hq
        subst hq
        have hpcts : pctValuesOf (a :: rest) = pctValuesOf rest := by
          simp [pctValuesOf, List.filterMap_cons, hkv]
        rw [hpcts]
        exact ⟨ihv, ihp⟩
      | some kv =>
        rw [hkv] at hq
        dsimp only at hq
        by_cases hk : jsToLower kv.1 = "pct".data
        · have hpcts : pctValuesOf (a :: rest) = kv.2 :: pctValuesOf rest := by
            simp [pctValuesOf, List.filterMap_cons, hkv, hk]
          rw [processKV_pct_eq kv.1 kv.2 p hk] at hq
          cases hpi : jsParseInt kv.2 with
          | none => rw [hpi] at hq; cases hq
          | some n =>
            rw [hpi] at hq
            dsimp only at hq
            by_cases h5 : n < 0 ∨ 100 < n
            · rw [if_pos h5] at hq; cases hq
            · rw [if_neg h5] at hq
              injection hq with hq
              subst hq
              rw [hpcts]
              constructor
              · intro v hv
                rcases List.mem_cons.mp hv with rfl | hv2
                · simp only [validPctValB, hpi, decide_eq_true_eq]
                  omega
                · exact ihv v hv2
              · rw [List.foldl_cons, hpi]
                simpa using ihp
        · have hpcts : pctValuesOf (a :: rest) = pctValuesOf rest := by
            simp [pctValuesOf, List.filterMap_cons, hkv, hk]
          have hpp : p2.percentage = p.percentage :=
            processKV_pct_invariant kv.1 kv.2 p p2 hk hq
          rw [hpcts]
          refine ⟨ihv, ?_⟩
          rw [← hpp]
          exact ihp

/-- A fold that only keeps the latest value reduces to the last element. -/
theorem foldl_const_getLast {β : Type} (f : List Char → β) :
    ∀ (l : List (List Char)) (init : β),
      l.foldl (fun _ v => f v) init
        = (match l.getLast? with | none => init | some v => f v) := by
  intro l
  induction l with
  | nil => intro init; simp
  | cons x xs ih =>
    intro init
    rw [List.foldl_cons, ih (f x)]
    cases xs with
    | nil => simp
    | cons y ys =>
      rw [List.getLast?_cons_cons]
      cases hg : (y :: ys).getLast? with
      | none => simp at hg
      | some v => simp

/-- Claim C1 (amended): the parse throws whenever some `pct` pair's value
fails the `parseInt`-in-`[0,100]` check (`parseInt` reads an optional
sign and the longest leading digit run, ignoring what follows); a
successful parse implies every `pct` value passed that check, and
`percentage` equals the `parseInt` of the last `pct` value, or is absent
when no `pct` pair occurs. -/
theorem parse_pct_follows_parseInt (record : String) :
    ((∃ v ∈ pctValuesOf (pairsOf record), validPctValB v = false) →
        ∃ e, parseDmarcRecord record = .error e)
    ∧ (∀ q, parseDmarcRecord record = .ok q →
        (∀ v ∈ pctValuesOf (pairsOf record), validPctValB v = true)
        ∧ q.percentage = (match (pctValuesOf (pairsOf record)).getLast? with
            | none => none
            | some v => jsParseInt v)) := by
  constructor
  · rintro ⟨v, hvmem, hbadv⟩
    obtain ⟨pair, hpmem, hpf⟩ := List.mem_filterMap.mp hvmem
    have hbad : ∀ r : DmarcPolicy, ∃ e, processPair pair r = .error e := by
      intro r
      cases hkv : kvOf pair with
      | none => rw [hkv] at hpf; cases hpf
      | some kv =>
        rw [hkv] at hpf
        dsimp only at hpf
        by_cases hk : jsToLower kv.1 = "pct".data
        · rw [if_pos hk] at hpf
          injection hpf with hpf
          subst hpf
          refine ⟨"Invalid percentage value: " ++ String.mk kv.2, ?_⟩
          unfold processPair
          rw [hkv]
          dsimp only
          rw [processKV_pct_eq kv.1 kv.2 r hk]
          cases hpi : jsParseInt kv.2 with
          | none => rfl
          | some n =>
            dsimp only
            have hrange : n < 0 ∨ 100 < n := by
              simp only [validPctValB, hpi, decide_eq_false_iff_not] at hbadv
              omega
            rw [if_pos hrange]
        · rw [if_neg hk] at hpf
          cases hpf
    unfold parseDmarcRecord
    by_cases hempty : record.data = []
    · exact ⟨"Invalid DMARC record: record must be a non-empty string", by simp [hempty]⟩
    · by_cases hpre : "v=DMARC1".data.isPrefixOf (jsTrim record.data)
      · obtain ⟨e, he⟩ := processPairs_error_of_mem (pairsOf record)
          { version := "DMARC1", policy := "none",
            rawRecord := String.mk (jsTrim record.data) } pair hpmem hbad
        exact ⟨e, by simp [hempty, hpre, he]⟩
      · exact ⟨"Invalid DMARC record: must start with v=DMARC1", by simp [hempty, hpre]⟩
  · intro q h
    unfold parseDmarcRecord at h
    by_cases hempty : record.data = []
    · simp [hempty] at h
    · by_cases hpre : "v=DMARC1".data.isPrefixOf (jsTrim record.data)
      · simp only [hempty, hpre, if_true, if_false, ite_false, ite_true] at h
        obtain ⟨hv, hpct⟩ := processPairs_pct (pairsOf record) _ q h
        refine ⟨hv, ?_⟩
        rw [hpct, foldl_const_getLast]
      · simp [hempty, hpre] at h

/-- Claim C1 counterexample: `"50abc"` is not an integer string at all,
yet `parse("v=DMARC1; pct=50abc")` succeeds, with percentage 50 —
`parseInt` keeps the leading digit run and discards the rest. -/
theorem parse_pct_accepts_noninteger :
    isIntegerString "50abc".data = false
    ∧ jsParseInt "50abc".data = some 50
    ∧ parseDmarcRecord "v=DMARC1; pct=50abc"
        = .ok { version := "DMARC1", policy := "none", percentage := some 50,
                rawRecord := "v=DMARC1; pct=50abc" } := by
  exact ⟨by decide, by decide, by decide⟩

/-- Concrete instances of C1 (amended): an out-of-range `pct` throws, and
an in-range `pct` lands in `percentage`. -/
theorem parse_pct_follows_parseInt_witness :
    (∃ e, parseDmarcRecord "v=DMARC1; pct=200" = .error e)
    ∧ (∀ v ∈ pctValuesOf (pairsOf "v=DMARC1; pct=50"), validPctValB v = true) :=
  ⟨(parse_pct_follows_parseInt "v=DMARC1; pct=200").1
      ⟨"200".data, by decide, by decide⟩,
   ((parse_pct_follows_parseInt "v=DMARC1; pct=50").2
      { version := "DMARC1", policy := "none", percentage := some 50,
        rawRecord := "v=DMARC1; pct=50" } (by decide)).1⟩

end PctClaims

section SegmentClaims

/-- `splitCh` always yields the prefix before the first separator first,
followed by the split of what comes after it. -/
theorem splitCh_eq_cons (c : Char) (s : List Char) :
    splitCh c s
      = s.takeWhile (fun x => x ≠ c)
        :: (match s.dropWhile (fun x => x ≠ c) with
            | [] => []
            | _ :: rest => splitCh c rest) := by
  induction s with
  | nil => simp [splitCh]
  | cons x xs ih =>
    by_cases hx : x = c
    · subst hx
      simp [splitCh]
    · simp [splitCh, hx, ih]

/-- The source's split-on-all-`=` destructuring reads the same key/value
as a split on the first `=` whose value stops at the second `=`. -/
theorem kvOf_eq_kvFirstSplit (pair : List Char) : kvOf pair = kvFirstSplit pair := by
  unfold kvOf kvFirstSplit
  by_cases hin : '=' ∈ pair
  · have hd : pair.dropWhile (fun c => c ≠ '=') ≠ [] := by
      intro hnil
      rw [List.dropWhile_eq_nil_iff] at hnil
      have := hnil '=' hin
      simp at this
    cases hdw : pair.dropWhile (fun c => c ≠ '=') with
    | nil => exact absurd hdw hd
    | cons d rest =>
      rw [splitCh_eq_cons, hdw]
      dsimp only
      rw [splitCh_eq_cons]
      simp [hin]
  · have hd : pair.dropWhile (fun c => c ≠ '=') = [] := by
      rw [List.dropWhile_eq_nil_iff]
      intro a ha
      have hane : a ≠ '=' := fun hh => hin (hh ▸ ha)
      simp [hane]
    rw [splitCh_eq_cons, hd]
    simp [hin]

/-- The two loop variants agree. -/
theorem processPairsFE_eq (pairs : List (List Char)) (p : DmarcPolicy) :
    processPairsFE pairs p = processPairs pairs p := by
  induction pairs generalizing p with
  | nil => rfl
  | cons a rest ih =>
    unfold processPairsFE processPairs processPairFE processPair
    rw [kvOf_eq_kvFirstSplit]
    cases kvFirstSplit a with
    | none => exact ih p
    | some kv =>
      dsimp only
      cases processKV kv.1 kv.2 p with
      | error e => rfl
      | ok p2 => exact ih p2

/-- Claim C4 (amended): the parser splits the trimmed record on `;`,
trims each segment, discards the empty ones, and reads each remaining
segment as the trimmed text before the first `=` (key) and the trimmed
text between the first and the second `=`, or to the end when there is no
second `=` (value) — text after a second `=` is discarded; segments
without `=` (or with an empty key) are skipped rather than failing. -/
theorem parse_splits_on_eq (record : String) :
    parseDmarcRecord record = parseDmarcRecordFirstEq record := by
  unfold parseDmarcRecord parseDmarcRecordFirstEq
  simp only [processPairsFE_eq]

/-- Claim C4 counterexample: in `rua=a@b.cd=x` the parsed value is
`a@b.cd`, the text between the first and second `=`, not `a@b.cd=x`, the
text after the first `=` — the trailing `=x` is discarded. -/
theorem parse_value_between_eq_signs :
    parseDmarcRecord "v=DMARC1; rua=a@b.cd=x"
      = .ok { version := "DMARC1", policy := "none",
              reportingAddresses := some ["a@b.cd"],
              rawRecord := "v=DMARC1; rua=a@b.cd=x" }
    ∧ parseDmarcRecord "v=DMARC1; rua=a@b.cd=x"
      ≠ .ok { version := "DMARC1", policy := "none",
              reportingAddresses := some ["a@b.cd=x"],
              rawRecord := "v=DMARC1; rua=a@b.cd=x" } := by
  exact ⟨by decide, by decide⟩

end SegmentClaims
